import Mathlib

/-!
Verification of the command-frequency history parser (main.go).

The embedding is byte-level: a Go string is a `List Nat` of byte values
0..255, because the tokenizer of the source iterates the string by byte
index (line 37-38 of main.go reads the byte s[i] and widens it to a rune)
and all other string operations of the source (SplitN, HasPrefix,
TrimSuffix, Contains with one-byte needles) are byte operations.
Go library functions used by the source (unicode.IsSpace,
strings.TrimSpace with its UTF-8 decoding, strconv.ParseInt,
strings.Builder.WriteRune with its UTF-8 re-encoding and time.Unix)
are reproduced at that byte level.
-/

namespace CmdFreq

/-- Go unicode.IsSpace restricted to the Latin-1 range: the tokenizer of the
source applies it to a single byte widened to a rune, so only the
Latin-1 fast path of the Go function is reachable there. True for the
ASCII whitespace bytes 9-13 and 32 and for the bytes 0x85 and 0xA0. -/
def goIsSpaceByte (b : Nat) : Bool :=
  decide (b = 9) || decide (b = 10) || decide (b = 11) || decide (b = 12) ||
  decide (b = 13) || decide (b = 32) || decide (b = 133) || decide (b = 160)

/-- Go unicode.IsSpace on a full rune value: the White_Space code points.
Used by strings.TrimSpace, which decodes UTF-8 runes. -/
def isWhiteSpaceRune (r : Nat) : Bool :=
  goIsSpaceByte r || decide (r = 0x1680) ||
  (decide (0x2000 ≤ r) && decide (r ≤ 0x200A)) ||
  decide (r = 0x2028) || decide (r = 0x2029) || decide (r = 0x202F) ||
  decide (r = 0x205F) || decide (r = 0x3000)

/-- Go utf8.DecodeRune on a byte list: the first rune and its size in
bytes. Invalid, overlong, surrogate or truncated sequences give
(0xFFFD, 1); the empty input gives (0xFFFD, 0), as in Go. -/
def utf8DecodeRune : List Nat → Nat × Nat
  | [] => (0xFFFD, 0)
  | b0 :: rest =>
    if b0 < 0x80 then (b0, 1)
    else if b0 < 0xC2 then (0xFFFD, 1)
    else if b0 < 0xE0 then
      match rest with
      | b1 :: _ =>
        if 0x80 ≤ b1 ∧ b1 ≤ 0xBF then ((b0 - 0xC0) * 64 + (b1 - 0x80), 2)
        else (0xFFFD, 1)
      | [] => (0xFFFD, 1)
    else if b0 < 0xF0 then
      match rest with
      | b1 :: b2 :: _ =>
        let lo1 := if b0 = 0xE0 then 0xA0 else 0x80
        let hi1 := if b0 = 0xED then 0x9F else 0xBF
        if lo1 ≤ b1 ∧ b1 ≤ hi1 ∧ 0x80 ≤ b2 ∧ b2 ≤ 0xBF then
          ((b0 - 0xE0) * 4096 + (b1 - 0x80) * 64 + (b2 - 0x80), 3)
        else (0xFFFD, 1)
      | _ => (0xFFFD, 1)
    else if b0 < 0xF5 then
      match rest with
      | b1 :: b2 :: b3 :: _ =>
        let lo1 := if b0 = 0xF0 then 0x90 else 0x80
        let hi1 := if b0 = 0xF4 then 0x8F else 0xBF
        if lo1 ≤ b1 ∧ b1 ≤ hi1 ∧ 0x80 ≤ b2 ∧ b2 ≤ 0xBF ∧ 0x80 ≤ b3 ∧ b3 ≤ 0xBF then
          ((b0 - 0xF0) * 262144 + (b1 - 0x80) * 4096 + (b2 - 0x80) * 64 + (b3 - 0x80), 4)
        else (0xFFFD, 1)
      | _ => (0xFFFD, 1)
    else (0xFFFD, 1)

/-- Go utf8.RuneStart: a byte that does not have the continuation shape
10xxxxxx. -/
def runeStart (b : Nat) : Bool := !(decide (0x80 ≤ b) && decide (b < 0xC0))

/-- Helper for utf8DecodeLastRune: decode the candidate suffix seq and
accept it only when the decoded size spans the whole suffix, as the Go
DecodeLastRune does with its start+size == end check. -/
def decodeLastCheck (seq : List Nat) : Nat × Nat :=
  let rn := utf8DecodeRune seq
  if rn.2 = seq.length then rn else (0xFFFD, 1)

/-- Go utf8.DecodeLastRune on a byte list: the last rune and its size.
Scans at most 3 bytes back from the final byte for a start byte. -/
def utf8DecodeLastRune (s : List Nat) : Nat × Nat :=
  match s.reverse with
  | [] => (0xFFFD, 0)
  | b :: rbs =>
    if b < 0x80 then (b, 1)
    else
      match rbs with
      | [] => (0xFFFD, 1)
      | b1 :: rbs2 =>
        if runeStart b1 then decodeLastCheck [b1, b]
        else
          match rbs2 with
          | [] => (0xFFFD, 1)
          | b2 :: rbs3 =>
            if runeStart b2 then decodeLastCheck [b2, b1, b]
            else
              match rbs3 with
              | [] => (0xFFFD, 1)
              | b3 :: _ =>
                if runeStart b3 then decodeLastCheck [b3, b2, b1, b]
                else (0xFFFD, 1)

/-- Leading-whitespace stripping loop of Go strings.TrimSpace (the
TrimLeftFunc half): decode the first rune, drop it while it is white
space. The fuel argument bounds the iteration count; each step consumes
at least one byte (utf8DecodeRune returns size at least 1 on nonempty
input, see utf8DecodeRune_size_pos), so fuel = length always suffices. -/
def trimLeftSpaceAux : Nat → List Nat → List Nat
  | _, [] => []
  | 0, s => s
  | fuel + 1, b :: rest =>
    let rn := utf8DecodeRune (b :: rest)
    if isWhiteSpaceRune rn.1 then trimLeftSpaceAux fuel ((b :: rest).drop rn.2)
    else b :: rest

/-- Trailing-whitespace stripping loop of Go strings.TrimSpace (the
TrimRightFunc half), with the same fuel discipline. -/
def trimRightSpaceAux : Nat → List Nat → List Nat
  | _, [] => []
  | 0, s => s
  | fuel + 1, b :: rest =>
    let rn := utf8DecodeLastRune (b :: rest)
    if isWhiteSpaceRune rn.1 then
      trimRightSpaceAux fuel ((b :: rest).take ((b :: rest).length - rn.2))
    else b :: rest

/-- Go strings.TrimSpace: trim White_Space runes from both ends. -/
def goTrimSpace (s : List Nat) : List Nat :=
  let l := trimLeftSpaceAux s.length s
  trimRightSpaceAux l.length l

/-- Go utf8 encoding of a code point, as performed by
strings.Builder.WriteRune. The tokenizer only ever writes runes that
came from a single byte, so only the 1-byte and 2-byte shapes are
reachable there. -/
def utf8EncodeRune (r : Nat) : List Nat :=
  if r < 0x80 then [r]
  else if r < 0x800 then [0xC0 + r / 64, 0x80 + r % 64]
  else if r < 0x10000 then [0xE0 + r / 4096, 0x80 + r / 64 % 64, 0x80 + r % 64]
  else [0xF0 + r / 262144, 0x80 + r / 4096 % 64, 0x80 + r / 64 % 64, 0x80 + r % 64]

/-- current.WriteRune(c) of the source: append the UTF-8 encoding of the
rune to the token being built. For byte values at least 0x80 this is a
re-encoding, not a copy of the original byte. -/
def writeRune (cur : List Nat) (r : Nat) : List Nat := cur ++ utf8EncodeRune r

/-- The loop of shellSplit (main.go lines 37-92) plus the final flush
(lines 94-96). Arguments: remaining input bytes, the current token
buffer, the inSingle and inDouble flags, and the tokens emitted so far.
Byte values: 10 newline, 34 double quote, 36 dollar, 39 single quote,
92 backslash, 96 backquote. The one-byte-left case is the instance of
the loop body in which the lookahead test i+1 < len(s) is false: there a
backslash is never an escape (both backslash cases of the switch require
the lookahead), so it falls through to the literal-copy default. -/
def shellSplitAux : List Nat → List Nat → Bool → Bool → List (List Nat) → List (List Nat)
  | [], cur, _, _, toks => if 0 < cur.length then toks ++ [cur] else toks
  | [c], cur, inS, inD, toks =>
    if inS then
      if c = 39 then shellSplitAux [] cur false inD toks
      else shellSplitAux [] (writeRune cur c) inS inD toks
    else if inD then
      if c = 34 then shellSplitAux [] cur inS false toks
      else shellSplitAux [] (writeRune cur c) inS inD toks
    else if c = 39 then shellSplitAux [] cur true inD toks
    else if c = 34 then shellSplitAux [] cur inS true toks
    else if goIsSpaceByte c then
      if 0 < cur.length then shellSplitAux [] [] inS inD (toks ++ [cur])
      else shellSplitAux [] cur inS inD toks
    else shellSplitAux [] (writeRune cur c) inS inD toks
  | c :: next :: rest2, cur, inS, inD, toks =>
    if inS then
      if c = 39 then shellSplitAux (next :: rest2) cur false inD toks
      else shellSplitAux (next :: rest2) (writeRune cur c) inS inD toks
    else if inD then
      if c = 92 then
        if next = 34 ∨ next = 92 ∨ next = 36 ∨ next = 96 ∨ next = 10 then
          shellSplitAux rest2 (writeRune cur next) inS inD toks
        else shellSplitAux (next :: rest2) (writeRune cur c) inS inD toks
      else if c = 34 then shellSplitAux (next :: rest2) cur inS false toks
      else shellSplitAux (next :: rest2) (writeRune cur c) inS inD toks
    else if c = 92 then shellSplitAux rest2 (writeRune cur next) inS inD toks
    else if c = 39 then shellSplitAux (next :: rest2) cur true inD toks
    else if c = 34 then shellSplitAux (next :: rest2) cur inS true toks
    else if goIsSpaceByte c then
      if 0 < cur.length then shellSplitAux (next :: rest2) [] inS inD (toks ++ [cur])
      else shellSplitAux (next :: rest2) cur inS inD toks
    else shellSplitAux (next :: rest2) (writeRune cur c) inS inD toks

/-- shellSplit of the source (main.go lines 30-99). -/
def shellSplit (s : List Nat) : List (List Nat) :=
  shellSplitAux s [] false false []

/-- ParsedCommand of the source (main.go lines 15-19). -/
structure ParsedCommand where
  Raw : List Nat
  Cmd : List Nat
  Args : List (List Nat)
deriving DecidableEq

/-- The loop condition of main.go line 110: the token contains the byte
61 (equals sign) and its first byte is not 45 (dash). -/
def isEnvAssign (t : List Nat) : Bool :=
  t.contains 61 && !(decide (t.take 1 = [45]))

/-- parseCommand of the source (main.go lines 101-123). The index loop of
lines 109-112 that skips leading assignment tokens is rendered as
dropWhile: tokens[start:] is exactly tokens.dropWhile isEnvAssign. -/
def parseCommand (raw : List Nat) : ParsedCommand :=
  let tokens := shellSplit (goTrimSpace raw)
  match tokens with
  | [] => ⟨raw, [], []⟩
  | t0 :: rest =>
    match (t0 :: rest).dropWhile isEnvAssign with
    | [] => ⟨raw, t0, []⟩
    | c :: args => ⟨raw, c, args⟩

/-- An instant of Go time, counted in seconds relative to January 1 of
year 1 UTC, the zero value of time.Time. The source only ever builds
times with time.Unix(ts, 0) or the zero value, and only compares them
with IsZero, so seconds suffice. -/
def unixToInternal : Int := 62135596800

/-- time.Unix(sec, 0) as an instant in the internal count. -/
def timeUnix (sec : Int) : Int := sec + unixToInternal

/-- time.Time.IsZero of the source (main.go line 217). -/
def timeIsZero (t : Int) : Bool := decide (t = 0)

/-- Entry of the source (main.go lines 22-26). Timestamp is an instant in
the internal count; the zero value of the Go struct has Timestamp 0 and
Duration 0. -/
structure Entry where
  Timestamp : Int
  Duration : Int
  Parsed : ParsedCommand
deriving DecidableEq

/-- Go strconv.ParseInt(s, 10, 64), which is also strconv.Atoi on a
64-bit platform: optional single sign byte (43 plus, 45 minus), then one
or more decimal digit bytes 48-57, value within the int64 range;
anything else is an error, rendered as none. -/
def parseSigned (s : List Nat) : Option Int :=
  let core : Bool × List Nat :=
    match s with
    | 43 :: rest => (false, rest)
    | 45 :: rest => (true, rest)
    | _ => (false, s)
  match core with
  | (neg, ds) =>
    if ds = [] then none
    else if ds.all fun b => decide (48 ≤ b) && decide (b ≤ 57) then
      let v : Nat := ds.foldl (fun acc b => acc * 10 + (b - 48)) 0
      let i : Int := if neg then -(v : Int) else (v : Int)
      if -(2 ^ 63) ≤ i ∧ i < 2 ^ 63 then some i else none
    else none

/-- Go strings.SplitN(s, sep, 2) for a one-byte separator, keeping only
the information the source uses: some (before, after) at the first
occurrence of the separator, none when the separator is absent (len 1
result in Go). -/
def splitFirst (s : List Nat) (sep : Nat) : Option (List Nat × List Nat) :=
  match s with
  | [] => none
  | c :: rest =>
    if c = sep then some ([], rest)
    else
      match splitFirst rest sep with
      | some (pre, post) => some (c :: pre, post)
      | none => none

/-- The byte string of the literal colon-space marker of main.go line 141. -/
def colonSpace : List Nat := [58, 32]

/-- startsWith pre s: Go strings.HasPrefix(s, pre). -/
def startsWith : List Nat → List Nat → Bool
  | [], _ => true
  | _ :: _, [] => false
  | p :: ps, c :: cs => decide (p = c) && startsWith ps cs

/-- strings.TrimPrefix(s, colon-space) of main.go line 144. -/
def dropColonSpace (s : List Nat) : List Nat :=
  if startsWith colonSpace s then s.drop 2 else s

/-- The extended-format attempt of flushEntry (main.go lines 141-160):
some entry when every step succeeds, none when any step fails and the
code falls through to the plain-line fallback. -/
def extendedEntry (line : List Nat) : Option Entry :=
  if startsWith colonSpace line then
    match splitFirst line 59 with
    | some (p0, cmdPart) =>
      match splitFirst (dropColonSpace p0) 58 with
      | some (m0, m1) =>
        match parseSigned (goTrimSpace m0), parseSigned (goTrimSpace m1) with
        | some ts, some dur => some ⟨timeUnix ts, dur, parseCommand cmdPart⟩
        | some _, none => none
        | none, _ => none
      | none => none
    | none => none
  else none

/-- flushEntry of the source (main.go lines 138-166), returning the zero
or one entries it appends. The fallback entry carries the zero values of
the Entry struct: Timestamp 0 (the zero instant) and Duration 0. -/
def flushEntry (line : List Nat) : List Entry :=
  match extendedEntry line with
  | some e => [e]
  | none => if line = [] then [] else [⟨0, 0, parseCommand line⟩]

/-- The line loop of parseHistory (main.go lines 168-184) plus the final
accumulator flush (lines 186-188). First argument: the physical lines
delivered by the scanner, without their line terminators; second: the
currentCmd accumulator. Byte 92 is the backslash, byte 10 the newline
written between joined segments. -/
def parseLines : List (List Nat) → List Nat → List Entry
  | [], acc => if 0 < acc.length then flushEntry acc else []
  | line :: rest, acc =>
    if line.getLast? = some 92 then parseLines rest (acc ++ line.dropLast ++ [10])
    else if 0 < acc.length then flushEntry (acc ++ line) ++ parseLines rest []
    else flushEntry line ++ parseLines rest []

/-- The three ways a run of parseHistory over a file can go: the open
fails (main.go lines 126-129), a read fails after the scanner delivered
some prefix of the lines (scanner.Scan then returns false and
scanner.Err is non-nil at line 190), or all lines are delivered. -/
inductive ReadOutcome where
  | openFail : ReadOutcome
  | readFail : List (List Nat) → ReadOutcome
  | success : List (List Nat) → ReadOutcome
deriving DecidableEq

/-- parseHistory of the source (main.go lines 125-191) as a function of
the read outcome: the entry list and the error flag it returns. On an
open failure it returns (nil, err); when the scanner stops, whether at
end of file or at a read error, the loop exits, the accumulator is
flushed, and the entries built so far are returned together with
scanner.Err(). -/
def parseHistory : ReadOutcome → List Entry × Bool
  | ReadOutcome.openFail => ([], true)
  | ReadOutcome.readFail delivered => (parseLines delivered [], true)
  | ReadOutcome.success lines => (parseLines lines [], false)

set_option maxHeartbeats 2000000
set_option maxRecDepth 4000

/-! ## Helper lemmas shared by the claim theorems -/

/-- On nonempty input the UTF-8 decoder consumes at least one byte, so
the trimming loops shorten their argument at every step and the fuel of
trimLeftSpaceAux and trimRightSpaceAux never runs out. -/
theorem utf8DecodeRune_size_pos (s : List Nat) (h : s ≠ []) : 1 ≤ (utf8DecodeRune s).2 := by
  cases s with
  | nil => exact absurd rfl h
  | cons b0 rest =>
    unfold utf8DecodeRune
    repeat' first
      | split
      | simp_all


/-- Appending a nonempty token preserves the all-tokens-nonempty invariant. -/
theorem snocInv {toks : List (List Nat)} {cur : List Nat} (h : ∀ t ∈ toks, t ≠ [])
    (hc : 0 < cur.length) : ∀ t ∈ toks ++ [cur], t ≠ [] := by
  intro t ht
  rcases List.mem_append.mp ht with h1 | h1
  · exact h t h1
  · rcases List.mem_singleton.mp h1 with rfl
    exact List.length_pos.mp hc

/-- The tokenizer loop only ever appends the current buffer under the
0 < current.Len() guard, so it preserves nonemptiness of all tokens. -/
theorem shellSplitAux_ne_nil (s cur : List Nat) (inS inD : Bool) (toks : List (List Nat)) :
    (∀ t ∈ toks, t ≠ []) → ∀ t ∈ shellSplitAux s cur inS inD toks, t ≠ [] := by
  induction s, cur, inS, inD, toks using shellSplitAux.induct
  all_goals intro h
  all_goals try rename_i ih
  all_goals simp only [shellSplitAux]
  all_goals repeat' split
  all_goals first
    | exact h
    | exact snocInv h (by assumption)
    | exact ih h
    | exact ih (snocInv h (by assumption))
    | contradiction

/-- Every token produced by shellSplit is nonempty. -/
theorem shellSplit_ne_nil (s : List Nat) : ∀ t ∈ shellSplit s, t ≠ [] :=
  shellSplitAux_ne_nil s [] false false [] (by intro t ht; cases ht)

/-- A whitespace byte outside quotes flushes a nonempty buffer and is
discarded; with an empty buffer it is just discarded. -/
theorem shellSplitAux_space_step (c : Nat) (rest cur : List Nat) (toks : List (List Nat))
    (h : goIsSpaceByte c = true) :
    shellSplitAux (c :: rest) cur false false toks =
      if 0 < cur.length then shellSplitAux rest [] false false (toks ++ [cur])
      else shellSplitAux rest cur false false toks := by
  have hc : ((((((c = 9 ∨ c = 10) ∨ c = 11) ∨ c = 12) ∨ c = 13) ∨ c = 32) ∨ c = 133) ∨ c = 160 := by
    simpa [goIsSpaceByte] using h
  cases rest with
  | nil => rcases hc with (((((((h | h) | h) | h) | h) | h) | h) | h) <;> subst h <;> rfl
  | cons b bs => rcases hc with (((((((h | h) | h) | h) | h) | h) | h) | h) <;> subst h <;> rfl

/-- Scanning input made only of whitespace bytes with an empty buffer
emits nothing. -/
theorem shellSplitAux_spaces (s : List Nat) (toks : List (List Nat))
    (h : ∀ b ∈ s, goIsSpaceByte b = true) :
    shellSplitAux s [] false false toks = toks := by
  induction s with
  | nil => rfl
  | cons c rest ih =>
    rw [shellSplitAux_space_step c rest [] toks (h c (List.mem_cons_self c rest))]
    simpa using ih fun b hb => h b (List.mem_cons_of_mem c hb)

/-- Inversion of a successful extended-format attempt: it can only
succeed through the full chain of prefix test, the two splits and the
two integer parses, and the entry is then determined by them. -/
theorem extendedEntry_some {line : List Nat} {e : Entry}
    (hx : extendedEntry line = some e) :
    ∃ ts dur p0 cmdPart m0 m1,
      startsWith colonSpace line = true
      ∧ splitFirst line 59 = some (p0, cmdPart)
      ∧ splitFirst (dropColonSpace p0) 58 = some (m0, m1)
      ∧ parseSigned (goTrimSpace m0) = some ts
      ∧ parseSigned (goTrimSpace m1) = some dur
      ∧ e = ⟨timeUnix ts, dur, parseCommand cmdPart⟩ := by
  unfold extendedEntry at hx
  split at hx
  case isFalse => exact absurd hx (by simp)
  case isTrue hpre =>
    split at hx
    case h_2 => exact absurd hx (by simp)
    case h_1 p0 cmdPart heq1 =>
      split at hx
      case h_2 => exact absurd hx (by simp)
      case h_1 m0 m1 heq2 =>
        split at hx
        case h_2 => exact absurd hx (by simp)
        case h_3 => exact absurd hx (by simp)
        case h_1 ts dur heq3 heq4 =>
          exact ⟨ts, dur, p0, cmdPart, m0, m1, hpre, heq1, heq2, heq3, heq4,
            (Option.some.inj hx).symm⟩

/-! ## Claim C1 -/

/-- Claim C1: every logical line that begins with the colon-space prefix
and splits at the first semicolon into a metadata part and a command
part, whose metadata (after the prefix is stripped) splits at the first
colon into two fields that, trimmed, parse as base-10 integers, yields
exactly one entry whose timestamp is time.Unix of the first integer,
whose duration is the second integer and whose parsed command is the
classification of the command part; concretely the single input line
of bytes of ": 1700000000:5;echo hi" produces exactly one entry with
timestamp epoch second 1700000000, duration 5, command echo and the
single argument hi. -/
theorem extendedFormat_entry :
    (∀ line p0 cmdPart m0 m1 ts dur,
      startsWith colonSpace line = true →
      splitFirst line 59 = some (p0, cmdPart) →
      splitFirst (dropColonSpace p0) 58 = some (m0, m1) →
      parseSigned (goTrimSpace m0) = some ts →
      parseSigned (goTrimSpace m1) = some dur →
      flushEntry line = [⟨timeUnix ts, dur, parseCommand cmdPart⟩])
    ∧ parseLines [[58,32,49,55,48,48,48,48,48,48,48,48,58,53,59,101,99,104,111,32,104,105]] [] =
        [⟨timeUnix 1700000000, 5,
          ⟨[101,99,104,111,32,104,105], [101,99,104,111], [[104,105]]⟩⟩] := by
  constructor
  · intro line p0 cmdPart m0 m1 ts dur hpre h1 h2 h3 h4
    simp only [flushEntry, extendedEntry, if_pos hpre, h1, h2, h3, h4]
  · decide

/-- Witness for C1 at the concrete line of the claim. -/
theorem extendedFormat_entry_witness :
    flushEntry [58,32,49,55,48,48,48,48,48,48,48,48,58,53,59,101,99,104,111,32,104,105] =
      [⟨timeUnix 1700000000, 5, parseCommand [101,99,104,111,32,104,105]⟩] :=
  extendedFormat_entry.1 [58,32,49,55,48,48,48,48,48,48,48,48,58,53,59,101,99,104,111,32,104,105]
    [58,32,49,55,48,48,48,48,48,48,48,48,58,53] [101,99,104,111,32,104,105]
    [49,55,48,48,48,48,48,48,48,48] [53] 1700000000 5
    (by decide) (by decide) (by decide) (by decide) (by decide)

/-! ## Claim C2 -/

/-- Claim C2: a physical line ending in a backslash has that backslash
stripped, the remainder plus a newline appended to the accumulator, and
processing continues with the next physical line; when input ends with
a nonempty accumulator, the accumulated content is flushed like any
other logical line; concretely the two lines of bytes of "echo \" and
"hello" join into the single logical line of bytes of "echo ",
newline, "hello" and yield exactly one entry, not two. -/
theorem continuation_joining :
    (∀ l rest acc, parseLines ((l ++ [92]) :: rest) acc = parseLines rest (acc ++ l ++ [10]))
    ∧ (∀ acc, acc ≠ [] → parseLines [] acc = flushEntry acc)
    ∧ parseLines [[101,99,104,111,32,92], [104,101,108,108,111]] [] =
        flushEntry [101,99,104,111,32,10,104,101,108,108,111]
    ∧ (parseLines [[101,99,104,111,32,92], [104,101,108,108,111]] []).length = 1 := by
  refine ⟨?_, ?_, by decide, by decide⟩
  · intro l rest acc
    simp [parseLines, List.getLast?_concat, List.dropLast_concat, List.append_assoc]
  · intro acc h
    have hpos : 0 < acc.length := List.length_pos.mpr h
    simp [parseLines, hpos]

/-- Witness for C2: flushing a nonempty accumulator at end of input. -/
theorem continuation_joining_witness : parseLines [] [97] = flushEntry [97] :=
  continuation_joining.2.1 [97] (by decide)

/-! ## Claim C3 -/

/-- Claim C3: a logical line that fails the extended format in any of
the four ways of the claim (wrong prefix, no semicolon, no colon in the
metadata, or a field that does not parse as an integer) is treated as a
plain command: a nonempty line yields one entry with the zero timestamp
and zero duration whose parsed command keeps the whole line as Raw, and
an empty line yields nothing; concretely the bytes of ": abc:5;ls"
yield one such entry whose Raw is the whole line. The model of
flushEntry is a total function into entry lists, so the fallback
reports no error to the caller. -/
theorem plainLine_fallback :
    (∀ line,
      (startsWith colonSpace line = false
        ∨ splitFirst line 59 = none
        ∨ (∃ p0 cmdPart, splitFirst line 59 = some (p0, cmdPart)
            ∧ (splitFirst (dropColonSpace p0) 58 = none
              ∨ (∃ m0 m1, splitFirst (dropColonSpace p0) 58 = some (m0, m1)
                  ∧ (parseSigned (goTrimSpace m0) = none
                    ∨ parseSigned (goTrimSpace m1) = none))))) →
      flushEntry line = if line = [] then [] else [⟨0, 0, parseCommand line⟩])
    ∧ flushEntry [58,32,97,98,99,58,53,59,108,115] =
        [⟨0, 0, parseCommand [58,32,97,98,99,58,53,59,108,115]⟩]
    ∧ (parseCommand [58,32,97,98,99,58,53,59,108,115]).Raw = [58,32,97,98,99,58,53,59,108,115]
    ∧ flushEntry [] = [] := by
  refine ⟨?_, by decide, by decide, by decide⟩
  intro line hfail
  have hnone : extendedEntry line = none := by
    unfold extendedEntry
    rcases hfail with h | h | ⟨p0, cmdPart, h1, h2 | ⟨m0, m1, h2, h3 | h3⟩⟩
    · simp [h]
    · simp [h]
    · simp [h1, h2]
    · simp [h1, h2, h3]
    · rcases hp : parseSigned (goTrimSpace m0) with _ | ts <;> simp [h1, h2, h3, hp]
  unfold flushEntry
  rw [hnone]

/-- Witness for C3 at a plain line (bytes of "ls", wrong prefix). -/
theorem plainLine_fallback_witness :
    flushEntry [108,115] =
      if ([108,115] : List Nat) = [] then [] else [⟨0, 0, parseCommand [108,115]⟩] :=
  plainLine_fallback.1 [108,115] (Or.inl (by decide))

/-! ## Claim C4 -/

/-- Counterexample to claim C4: on a read failure after the line of
bytes of "ls" was delivered, parseHistory returns the error together
with a nonempty prefix of the entry sequence, so the caller does
receive partial results with the error (main.go line 190 returns
entries alongside scanner.Err()). -/
theorem readFailure_partial_counterexample :
    (parseHistory (ReadOutcome.readFail [[108,115]])).2 = true
    ∧ (parseHistory (ReadOutcome.readFail [[108,115]])).1 ≠ [] :=
  ⟨by decide, by decide⟩

/-- Claim C4 as amended: parseHistory fails exactly when the open or a
read fails; an open failure returns no entries; a mid-stream read
failure returns the entries parsed from the lines delivered before the
failure together with the error; a successful run returns all entries
and no error. -/
theorem readFailure_behavior :
    (∀ outcome, (parseHistory outcome).2 = true ↔
        outcome = ReadOutcome.openFail ∨ ∃ d, outcome = ReadOutcome.readFail d)
    ∧ (parseHistory ReadOutcome.openFail).1 = []
    ∧ (∀ d, (parseHistory (ReadOutcome.readFail d)).1 = parseLines d [])
    ∧ (∀ l, parseHistory (ReadOutcome.success l) = (parseLines l [], false)) := by
  refine ⟨?_, rfl, fun d => rfl, fun l => rfl⟩
  intro outcome
  cases outcome with
  | openFail => simp [parseHistory]
  | readFail d => simp [parseHistory]
  | success l => simp [parseHistory]

/-- Witness for C4 as amended, at the open-failure outcome. -/
theorem readFailure_behavior_witness : (parseHistory ReadOutcome.openFail).2 = true :=
  (readFailure_behavior.1 ReadOutcome.openFail).mpr (Or.inl rfl)

/-! ## Claim C5 -/

/-- Counterexample to claim C5: the tokenizer walks bytes, not
characters. The UTF-8 bytes 226 128 128 of the Unicode space U+2000 do
not separate: alone they give a nonempty token list (not the empty one
the claim requires for all-whitespace input), and between the bytes of
a and b they give a single token rather than the two tokens a, b. -/
theorem unicodeSpace_counterexample :
    shellSplit [226,128,128] ≠ []
    ∧ (shellSplit [97,226,128,128,98]).length = 1
    ∧ shellSplit [97,226,128,128,98] ≠ [[97], [98]] :=
  ⟨by decide, by decide, by decide⟩

/-- Claim C5 as amended: outside quotes, every byte accepted by Go
unicode.IsSpace when the single byte is widened to a rune (the ASCII
whitespace bytes and the bytes 0x85 and 0xA0) flushes a nonempty buffer
as a completed token and is itself discarded; the empty string and
strings made only of such bytes give an empty token sequence; repeated
whitespace collapses. Unicode spaces whose UTF-8 encoding is longer
than one byte are not separators: their bytes are ordinary. -/
theorem spaceBytes_separate :
    (∀ c rest cur toks, goIsSpaceByte c = true →
      shellSplitAux (c :: rest) cur false false toks =
        if 0 < cur.length then shellSplitAux rest [] false false (toks ++ [cur])
        else shellSplitAux rest cur false false toks)
    ∧ (∀ s, (∀ b ∈ s, goIsSpaceByte b = true) → shellSplit s = [])
    ∧ shellSplit [] = []
    ∧ shellSplit [97,32,32,98] = [[97], [98]] := by
  refine ⟨shellSplitAux_space_step, ?_, rfl, by decide⟩
  intro s h
  exact shellSplitAux_spaces s [] h

/-- Witness for C5 as amended: a space byte flushing the buffer a. -/
theorem spaceBytes_separate_witness :
    shellSplitAux [32] [97] false false [] =
      if 0 < ([97] : List Nat).length then shellSplitAux [] [] false false ([] ++ [[97]])
      else shellSplitAux [] [97] false false [] :=
  spaceBytes_separate.1 32 [] [97] [] (by decide)

/-! ## Claim C6 -/

/-- Counterexample to claim C6: inside double quotes a character is not
always copied literally. The double-quoted character with UTF-8 bytes
195 169 comes out as the four bytes 195 131 194 169, because the loop
reads one byte at a time, widens it to a rune, and WriteRune re-encodes
that rune in UTF-8. -/
theorem doubleQuote_copy_counterexample :
    shellSplit [34,195,169,34] = [[195,131,194,169]]
    ∧ shellSplit [34,195,169,34] ≠ [[195,169]] :=
  ⟨by decide, by decide⟩

/-- Claim C6 as amended: inside double quotes a backslash followed by a
double quote, backslash, dollar, backquote or newline byte is replaced
by that byte (the escape is consumed); a backslash followed by any
other byte is itself copied literally, leaving the next byte for normal
processing; an unescaped double quote closes the quote without being
copied; every other byte is appended through WriteRune, which copies
bytes below 0x80 literally and re-encodes larger byte values as two
UTF-8 bytes; the double-quoted escaped-quote example of the claim
holds. -/
theorem doubleQuote_rules :
    (∀ next rest cur toks,
      (next = 34 ∨ next = 92 ∨ next = 36 ∨ next = 96 ∨ next = 10) →
      shellSplitAux (92 :: next :: rest) cur false true toks =
        shellSplitAux rest (cur ++ [next]) false true toks)
    ∧ (∀ next rest cur toks,
      ¬(next = 34 ∨ next = 92 ∨ next = 36 ∨ next = 96 ∨ next = 10) →
      shellSplitAux (92 :: next :: rest) cur false true toks =
        shellSplitAux (next :: rest) (cur ++ [92]) false true toks)
    ∧ (∀ rest cur toks, shellSplitAux (34 :: rest) cur false true toks =
        shellSplitAux rest cur false false toks)
    ∧ (∀ c rest cur toks, c ≠ 92 → c ≠ 34 →
        shellSplitAux (c :: rest) cur false true toks =
          shellSplitAux rest (writeRune cur c) false true toks)
    ∧ shellSplit [34,97,92,34,98,34] = [[97,34,98]] := by
  refine ⟨?_, ?_, ?_, ?_, by decide⟩
  · intro next rest cur toks h
    rcases h with h | h | h | h | h <;> subst h <;> rfl
  · intro next rest cur toks h
    simp [shellSplitAux, h, writeRune, utf8EncodeRune]
  · intro rest cur toks
    cases rest <;> rfl
  · intro c rest cur toks h1 h2
    cases rest <;> simp [shellSplitAux, h1, h2]

/-- Witness for C6 as amended: the escaped double quote inside double
quotes becomes a literal double-quote byte. -/
theorem doubleQuote_rules_witness :
    shellSplitAux [92, 34] [] false true [] = shellSplitAux [] ([] ++ [34]) false true [] :=
  doubleQuote_rules.1 34 [] [] [] (Or.inl rfl)

/-! ## Claim C7 -/

/-- Claim C7: classification trims surrounding whitespace, tokenizes
with the tokenizer, skips every leading token that contains an equals
byte and does not start with a dash byte, and returns the first
remaining token as the command with the tokens after it as arguments;
when skipping consumes every token the first token is returned as the
command with no arguments; concretely the bytes of
"FOO=1 BAR=2 ls -la" classify to command ls with argument -la, and the
bytes of "FOO=1" classify to command FOO=1 with no arguments. -/
theorem classify_behavior :
    (∀ raw, shellSplit (goTrimSpace raw) = [] → parseCommand raw = ⟨raw, [], []⟩)
    ∧ (∀ raw t0 rest, shellSplit (goTrimSpace raw) = t0 :: rest →
        ((t0 :: rest).dropWhile isEnvAssign = [] → parseCommand raw = ⟨raw, t0, []⟩)
        ∧ (∀ c args, (t0 :: rest).dropWhile isEnvAssign = c :: args →
            parseCommand raw = ⟨raw, c, args⟩))
    ∧ parseCommand [70,79,79,61,49,32,66,65,82,61,50,32,108,115,32,45,108,97] =
        ⟨[70,79,79,61,49,32,66,65,82,61,50,32,108,115,32,45,108,97], [108,115], [[45,108,97]]⟩
    ∧ parseCommand [70,79,79,61,49] = ⟨[70,79,79,61,49], [70,79,79,61,49], []⟩ := by
  refine ⟨?_, ?_, by decide, by decide⟩
  · intro raw h
    simp [parseCommand, h]
  · intro raw t0 rest h
    constructor
    · intro hd
      simp [parseCommand, h, hd]
    · intro c args hd
      simp [parseCommand, h, hd]

/-- Witness for C7 at the bytes of "ls": no assignment tokens, command
ls with no arguments. -/
theorem classify_behavior_witness : parseCommand [108,115] = ⟨[108,115], [108,115], []⟩ :=
  ((classify_behavior.2.1 [108,115] [108,115] [] (by decide)).2) [108,115] [] (by decide)

/-! ## Claim C8 -/

/-- Claim C8: the classification invariant. The command field is empty
only when the raw string was empty or consisted entirely of
environment-assignment tokens (vacuously: the tokenizer found no
tokens, and every one of its tokens is an assignment); and whenever the
command field is empty the arguments field is empty too. -/
theorem parsedCommand_invariant (raw : List Nat) :
    ((parseCommand raw).Cmd = [] →
      (raw = [] ∨ ∀ t ∈ shellSplit (goTrimSpace raw), isEnvAssign t = true))
    ∧ ((parseCommand raw).Cmd = [] → (parseCommand raw).Args = []) := by
  rcases htoks : shellSplit (goTrimSpace raw) with _ | ⟨t0, rest⟩
  · constructor
    · intro _
      right
      intro t ht
      cases ht
    · intro _
      simp [parseCommand, htoks]
  · have hmem : ∀ t ∈ shellSplit (goTrimSpace raw), t ≠ [] := shellSplit_ne_nil _
    have hne : (parseCommand raw).Cmd ≠ [] := by
      rcases hdrop : (t0 :: rest).dropWhile isEnvAssign with _ | ⟨c, args⟩
      · have hpc : parseCommand raw = ⟨raw, t0, []⟩ := by simp [parseCommand, htoks, hdrop]
        rw [hpc]
        exact hmem t0 (by rw [htoks]; exact List.mem_cons_self t0 rest)
      · have hpc : parseCommand raw = ⟨raw, c, args⟩ := by simp [parseCommand, htoks, hdrop]
        rw [hpc]
        have hcin : c ∈ t0 :: rest := by
          have hsub := List.dropWhile_sublist (l := t0 :: rest) isEnvAssign
          exact hsub.subset (hdrop ▸ List.mem_cons_self c args)
        exact hmem c (by rw [htoks]; exact hcin)
    exact ⟨fun h => absurd h hne, fun h => absurd h hne⟩

/-- Witness for C8 at the bytes of two single quotes: the tokenizer
returns no tokens, the command is empty and both implications fire. -/
theorem parsedCommand_invariant_witness :
    (([39,39] : List Nat) = [] ∨ ∀ t ∈ shellSplit (goTrimSpace [39,39]), isEnvAssign t = true)
    ∧ (parseCommand [39,39]).Args = [] :=
  ⟨(parsedCommand_invariant [39,39]).1 (by decide),
   (parsedCommand_invariant [39,39]).2 (by decide)⟩

/-! ## Claim C9 -/

/-- Counterexample to claim C9: the sentinel is not distinguishable from
every successfully parsed extended-format timestamp. The extended line
of bytes of ": -62135596800:5;ls" parses successfully (duration 5), and
time.Unix(-62135596800, 0) is exactly the zero instant, so the entry it
produces carries the sentinel while having real recorded metadata. -/
theorem timestamp_sentinel_counterexample :
    flushEntry [58,32,45,54,50,49,51,53,53,57,54,56,48,48,58,53,59,108,115] =
      [⟨0, 5, parseCommand [108,115]⟩]
    ∧ timeUnix (-62135596800) = 0
    ∧ timeIsZero 0 = true :=
  ⟨by decide, by decide, by decide⟩

/-- Claim C9 as amended: every entry is either fallback-shaped, with the
zero instant, zero duration and the whole line classified, or
extended-shaped, with both timestamp and duration coming from the
successfully parsed metadata of its line; every entry of a parse run
comes from flushing some logical line; and the sentinel zero instant
coincides with time.Unix(ts, 0) exactly for ts = -62135596800, so it is
distinguishable from every other recorded timestamp but not from that
one. -/
theorem timestamp_duration_provenance :
    (∀ line e, e ∈ flushEntry line →
      (e.Timestamp = 0 ∧ e.Duration = 0 ∧ e.Parsed = parseCommand line ∧ line ≠ [])
      ∨ (∃ ts dur p0 cmdPart m0 m1,
          startsWith colonSpace line = true
          ∧ splitFirst line 59 = some (p0, cmdPart)
          ∧ splitFirst (dropColonSpace p0) 58 = some (m0, m1)
          ∧ parseSigned (goTrimSpace m0) = some ts
          ∧ parseSigned (goTrimSpace m1) = some dur
          ∧ e = ⟨timeUnix ts, dur, parseCommand cmdPart⟩))
    ∧ (∀ lines acc e, e ∈ parseLines lines acc → ∃ line, e ∈ flushEntry line)
    ∧ (∀ ts : Int, timeIsZero (timeUnix ts) = true ↔ ts = -62135596800) := by
  refine ⟨?_, ?_, ?_⟩
  · intro line e he
    unfold flushEntry at he
    rcases hx : extendedEntry line with _ | e'
    · rw [hx] at he
      by_cases hl : line = []
      · rw [if_pos hl] at he
        cases he
      · rw [if_neg hl] at he
        left
        rcases List.mem_singleton.mp he with rfl
        exact ⟨rfl, rfl, rfl, hl⟩
    · rw [hx] at he
      rcases List.mem_singleton.mp he with rfl
      right
      obtain ⟨ts, dur, p0, cmdPart, m0, m1, hh⟩ := extendedEntry_some hx
      exact ⟨ts, dur, p0, cmdPart, m0, m1, hh.1, hh.2.1, hh.2.2.1, hh.2.2.2.1,
        hh.2.2.2.2.1, hh.2.2.2.2.2⟩
  · intro lines
    induction lines with
    | nil =>
      intro acc e he
      simp only [parseLines] at he
      split at he
      · exact ⟨acc, he⟩
      · cases he
    | cons line rest ih =>
      intro acc e he
      simp only [parseLines] at he
      split at he
      · exact ih _ e he
      · split at he
        · rcases List.mem_append.mp he with h | h
          · exact ⟨acc ++ line, h⟩
          · exact ih _ e h
        · rcases List.mem_append.mp he with h | h
          · exact ⟨line, h⟩
          · exact ih _ e h
  · intro ts
    simp only [timeIsZero, timeUnix, unixToInternal, decide_eq_true_eq]
    omega

/-- Witness for C9 as amended: the single entry of a one-line run comes
from flushing some logical line. -/
theorem timestamp_duration_provenance_witness :
    ∃ line, (⟨0, 0, parseCommand [108,115]⟩ : Entry) ∈ flushEntry line :=
  timestamp_duration_provenance.2.1 [[108,115]] [] ⟨0, 0, parseCommand [108,115]⟩ (by decide)

/-! ## Claim C10 -/

/-- Claim C10: every token the tokenizer returns is nonempty, because
the buffer is flushed only under the nonemptiness guard; the bytes of
two single quotes alone give the empty token sequence, an empty
double-quoted string likewise, and an empty quoted argument between
words is dropped rather than appearing as an empty token. -/
theorem tokens_nonempty :
    (∀ s t, t ∈ shellSplit s → t ≠ [])
    ∧ shellSplit [39,39] = []
    ∧ shellSplit [34,34] = []
    ∧ shellSplit [97,32,39,39,32,98] = [[97], [98]] := by
  exact ⟨fun s => shellSplit_ne_nil s, by decide, by decide, by decide⟩

/-- Witness for C10: the token of the one-byte input a is nonempty. -/
theorem tokens_nonempty_witness : ([97] : List Nat) ≠ [] :=
  tokens_nonempty.1 [97] [97] (by decide)

end CmdFreq
